import Mathlib

/-!
Shallow embedding of the dependency-resolution core of the mops-cli package
manager (`src/github.rs` and `src/toml.rs`), together with theorems settling
the specification claims about it.

Network and filesystem effects are modelled by explicit oracle parameters;
fallible operations return `Except` or `Option` (a Rust panic is modelled as
`Option.none` / a dedicated error value).  Rust `String`/`str` values are
modelled as Lean `String` (a structure over `List Char`), and the handful of
`str` primitives the source uses (`split`, `starts_with`, `strip_prefix`,
`ends_with`, `strip_suffix`, `replace`) are given explicit executable models
below so that every claim can be evaluated on concrete inputs.
-/

namespace MopsSpec

/-! ### Models of the Rust string primitives used by the source -/

/-- Model of Rust `str::split(c)` at the character-list level: split at every
occurrence of `c`, keeping empty segments.  The result is never empty. -/
def listSplitChar (c : Char) : List Char → List (List Char)
  | [] => [[]]
  | x :: xs =>
    if x = c then [] :: listSplitChar c xs
    else
      match listSplitChar c xs with
      | y :: ys => (x :: y) :: ys
      | [] => [[x]]

/-- Boolean list-prefix test (used to model `str::starts_with` and
`str::strip_prefix`). -/
def listIsPrefixOf : List Char → List Char → Bool
  | [], _ => true
  | _ :: _, [] => false
  | a :: l1, b :: l2 => a = b && listIsPrefixOf l1 l2

/-- Model of Rust `str::starts_with`. -/
def strStartsWith (s pat : String) : Bool :=
  listIsPrefixOf pat.data s.data

/-- Model of Rust `str::strip_prefix` (returns the remainder on success). -/
def stripStart (pat s : String) : Option String :=
  if listIsPrefixOf pat.data s.data then some (String.mk (s.data.drop pat.data.length))
  else none

/-- Model of Rust `str::ends_with`. -/
def strEndsWith (s pat : String) : Bool :=
  listIsPrefixOf pat.data.reverse s.data.reverse

/-- Model of Rust `str::strip_suffix` (returns the front part on success). -/
def stripEnd (pat s : String) : Option String :=
  if listIsPrefixOf pat.data.reverse s.data.reverse then
    some (String.mk (s.data.take (s.data.length - pat.data.length)))
  else none

/-- Model of Rust `str::split(c).collect::<Vec<_>>()`. -/
def rustSplit (c : Char) (s : String) : List String :=
  (listSplitChar c s.data).map String.mk

/-- Model of Rust `str::replace('/', "-")` (single-character pattern and
single-character replacement, hence a plain character map). -/
def replaceSlashDash (s : String) : String :=
  String.mk (s.data.map (fun c => if c = '/' then '-' else c))

/-- First `n` characters of a string; models the byte slice `&s[..n]` for the
ASCII strings (hex commit ids) the source slices, where bytes and characters
coincide. -/
def takeChars (n : Nat) (s : String) : String :=
  String.mk (s.data.take n)

/-- Substring containment, used to state that a diagnostic message carries a
serialized record. -/
def strContains (s sub : String) : Prop :=
  sub.data <:+: s.data

/-- Executable lexicographic strict order on character lists. -/
def listLtB : List Char → List Char → Bool
  | [], [] => false
  | [], _ :: _ => true
  | _ :: _, [] => false
  | a :: l1, b :: l2 => if a = b then listLtB l1 l2 else decide (a < b)

/-- Model of the Rust `Ord` order on `String` (byte-lexicographic; for the ASCII keys
this code compares, bytes and characters coincide).  Used for `BTreeMap` key
order and as the string part of the semver order. -/
def strLtB (a b : String) : Bool :=
  listLtB a.data b.data

/-! ### Model of `semver::Version` (the semver crate used by `parse_version`)

The source delegates to the external semver crate
(`ver.parse::<Version>()` in `src/toml.rs`).  The model below follows the
standard SemVer grammar for parsing and the total order of the crate on versions:
precedence per SemVer §11 (numeric core, then pre-release identifiers, a
version without pre-release being higher), with build metadata compared
lexically as a final tiebreak so that the order is total. -/

/-- A pre-release identifier: numeric or alphanumeric. -/
inductive PreId where
  | num (n : Nat)
  | alpha (s : String)
deriving DecidableEq, Repr

/-- A parsed semantic version. -/
structure Version where
  major : Nat
  minor : Nat
  patch : Nat
  pre : List PreId
  build : String
deriving DecidableEq, Repr

/-- Decimal value of a digit list. -/
def charsToNat (l : List Char) : Nat :=
  l.foldl (fun n c => n * 10 + (c.toNat - 48)) 0

/-- Non-empty, all decimal digits. -/
def isDigits (l : List Char) : Bool :=
  !l.isEmpty && l.all Char.isDigit

/-- SemVer forbids leading zeroes in numeric identifiers. -/
def noLeadingZero (l : List Char) : Bool :=
  match l with
  | '0' :: _ :: _ => false
  | _ => true

/-- Parse a numeric identifier (digits, no leading zero). -/
def parseNumericIdent (l : List Char) : Option Nat :=
  if isDigits l && noLeadingZero l then some (charsToNat l) else none

/-- Characters allowed in pre-release/build identifiers. -/
def isIdentChar (c : Char) : Bool :=
  c.isAlpha || c.isDigit || c = '-'

/-- Parse one pre-release identifier. -/
def parsePreIdent (l : List Char) : Option PreId :=
  if isDigits l then (parseNumericIdent l).map PreId.num
  else if !l.isEmpty && l.all isIdentChar then some (PreId.alpha (String.mk l))
  else none

/-- Split a list at the first occurrence of `c`, if any. -/
def splitFirst (c : Char) (l : List Char) : Option (List Char × List Char) :=
  match l.span (fun x => x != c) with
  | (_, []) => none
  | (a, _ :: b) => some (a, b)

/-- Validate build metadata: dot-separated non-empty identifiers. -/
def parseBuild (l : List Char) : Option String :=
  if (listSplitChar '.' l).all (fun seg => !seg.isEmpty && seg.all isIdentChar) then
    some (String.mk l)
  else none

/-- Parse a dot-separated pre-release section. -/
def parsePre (l : List Char) : Option (List PreId) :=
  (listSplitChar '.' l).mapM parsePreIdent

/-- Parse the `major.minor.patch` core. -/
def parseCore (l : List Char) : Option (Nat × Nat × Nat) :=
  match listSplitChar '.' l with
  | [a, b, c] =>
    match parseNumericIdent a, parseNumericIdent b, parseNumericIdent c with
    | some x, some y, some z => some (x, y, z)
    | _, _, _ => none
  | _ => none

/-- Model of `semver::Version::parse` (the `ver.parse::<Version>()` call inside
`parse_version`, `src/toml.rs`): `major.minor.patch` with optional
`-prerelease` and `+build` sections. -/
def parse_version (ver : String) : Option Version :=
  let l := ver.data
  let pb : List Char × Option (List Char) :=
    match splitFirst '+' l with
    | none => (l, none)
    | some (a, b) => (a, some b)
  let cp : List Char × Option (List Char) :=
    match splitFirst '-' pb.1 with
    | none => (pb.1, none)
    | some (a, b) => (a, some b)
  match parseCore cp.1 with
  | none => none
  | some (x, y, z) =>
    let preIds : Option (List PreId) :=
      match cp.2 with
      | none => some []
      | some p => parsePre p
    let buildStr : Option String :=
      match pb.2 with
      | none => some ""
      | some b => parseBuild b
    match preIds, buildStr with
    | some pids, some bs =>
      some { major := x, minor := y, patch := z, pre := pids, build := bs }
    | _, _ => none

/-- Order on pre-release identifiers: numeric before alphanumeric, numeric
compared as numbers, alphanumeric compared lexically. -/
def preIdLtB : PreId → PreId → Bool
  | PreId.num a, PreId.num b => decide (a < b)
  | PreId.num _, PreId.alpha _ => true
  | PreId.alpha _, PreId.num _ => false
  | PreId.alpha a, PreId.alpha b => strLtB a b

/-- Lexicographic order on pre-release identifier lists; a shorter list is
lower when it is a proper front of the other. -/
def preListLtB : List PreId → List PreId → Bool
  | [], [] => false
  | [], _ :: _ => true
  | _ :: _, [] => false
  | a :: l1, b :: l2 => if a = b then preListLtB l1 l2 else preIdLtB a b

/-- Model of the strict order of the semver crate on versions (the `ve < vp` test in
`resolve_versions`): numeric core first, then pre-release (absence of a
pre-release ranks higher), build metadata as a lexical tiebreak. -/
def versionLtB (a b : Version) : Bool :=
  if a.major ≠ b.major then decide (a.major < b.major)
  else if a.minor ≠ b.minor then decide (a.minor < b.minor)
  else if a.patch ≠ b.patch then decide (a.patch < b.patch)
  else
    match a.pre, b.pre with
    | [], [] => strLtB a.build b.build
    | [], _ :: _ => false
    | _ :: _, [] => true
    | p1, p2 => if p1 = p2 then strLtB a.build b.build else preListLtB p1 p2

/-! ### Model of `src/github.rs` -/

/-- A fully resolved repository pin.  The fields `repo`, `tag` and `commit` are
the struct fields of `RepoInfo` in `src/github.rs`.  The `base_dir` field is
present per the data model of the specification (§3) and its uses in
`src/toml.rs` (`repo_info.base_dir`); the copy of `github.rs` under `src/`
omits it, so it is modelled from the spec with default `"src"`. -/
structure RepoInfo where
  repo : String
  tag : String
  commit : String
  base_dir : String
deriving DecidableEq, Repr

/-- A network request made by the URL parser against the source-host API. -/
inductive GithubCall where
  | defaultBranch (repo : String)
  | latestCommit (repo tag : String)
deriving DecidableEq, Repr

/-- Oracle for the two source-host API endpoints used by `parse_github_url`
(`get_default_branch` and `get_latest_commit` in `src/github.rs`). -/
structure GithubOracle where
  defaultBranch : String → Except String String
  latestCommit : String → String → Except String String

/-- Lines 24-26 of `src/github.rs`: drop a trailing `".git"` from the second
path segment (tested before the `#` fragment is split off). -/
def stripDotGit (repoPart : String) : String :=
  if strEndsWith repoPart ".git" then (stripEnd ".git" repoPart).getD repoPart
  else repoPart

/-- Lines 27-37 of `src/github.rs`: split the second path segment at `#` and
the fragment at `@`, producing the repo name and optional ref and commit. -/
def parseTagCommit (repoPart : String) : String × Option String × Option String :=
  match rustSplit '#' repoPart with
  | [] => ("", none, none)
  | [r0] => (r0, none, none)
  | r0 :: frag :: _ =>
    match rustSplit '@' frag with
    | [] => (r0, none, none)
    | [t] => (r0, some t, none)
    | t :: c :: _ => (r0, some t, some c)

/-- Lines 38-40 of `src/github.rs`: resolve a missing ref by querying the
repository-metadata endpoint for the default branch. -/
def resolveTag (o : GithubOracle) (repo : String) :
    Option String → Except String (String × List GithubCall)
  | some t => Except.ok (t, [])
  | none =>
    match o.defaultBranch repo with
    | Except.error e => Except.error e
    | Except.ok b => Except.ok (b, [GithubCall.defaultBranch repo])

/-- Lines 41-43 of `src/github.rs`: resolve a missing commit by querying the
commits endpoint at the (possibly just resolved) ref. -/
def resolveCommit (o : GithubOracle) (repo tag : String) :
    Option String → Except String (String × List GithubCall)
  | some c => Except.ok (c, [])
  | none =>
    match o.latestCommit repo tag with
    | Except.error e => Except.error e
    | Except.ok sha => Except.ok (sha, [GithubCall.latestCommit repo tag])

/-- Model of `parse_github_url` (`src/github.rs` lines 12-49).  The result
carries the list of source-host API calls performed, so that "no network
requests" is a statement about the model. -/
def parse_github_url (o : GithubOracle) (url : String) :
    Except String (RepoInfo × List GithubCall) :=
  match stripStart "https://github.com/" url with
  | none => Except.error "invalid url"
  | some rest =>
    match rustSplit '/' rest with
    | owner :: repoPart0 :: _ =>
      match parseTagCommit (stripDotGit repoPart0) with
      | (repoName, tag0, commit0) =>
        match resolveTag o (owner ++ "/" ++ repoName) tag0 with
        | Except.error e => Except.error e
        | Except.ok (tag, calls1) =>
          match resolveCommit o (owner ++ "/" ++ repoName) tag commit0 with
          | Except.error e => Except.error e
          | Except.ok (commit, calls2) =>
            Except.ok
              ({ repo := owner ++ "/" ++ repoName, tag := tag, commit := commit,
                 base_dir := "src" }, calls1 ++ calls2)
    | _ => Except.error "invalid url"

/-- Non-empty digit runs separated by two dots, e.g. `0.3.0`. -/
def isNumericTriple (s : String) : Bool :=
  match listSplitChar '.' s.data with
  | [a, b, c] => isDigits a && isDigits b && isDigits c
  | _ => false

/-- Modelled from the spec: `RepoInfo::guess_version` is called in
`src/toml.rs` (line 141) but its definition is missing from the copy of
`github.rs` under `src/`.  Per spec §4.1 it "derives a semver-looking version
string from `ref` by stripping a leading `v` when it parses as a dotted
numeric triple". -/
def RepoInfo.guess_version (info : RepoInfo) : Option String :=
  let s :=
    match stripStart "v" info.tag with
    | some r => r
    | none => info.tag
  if isNumericTriple s then some s else none

/-- Modelled from the spec: the per-package completion marker of the repo fetcher
(`repo.get_done_file()` in `src/toml.rs` line 451; definition missing from the
copy of `github.rs` under `src/`).  Spec §4.7 only says it is "a marker
defined by the repo-fetcher"; the concrete name is irrelevant to every claim,
so a fixed name is used. -/
def RepoInfo.get_done_file (_ : RepoInfo) : String := ".done"

/-! ### Model of `src/toml.rs`: data model -/

/-- The `Mops` enum (`src/toml.rs` lines 350-356): a dependency reference as
written in a manifest.  Constructors `mops`/`repo`/`local_` model the Rust
variants `Mops`/`Repo`/`Local` (renamed because Lean reserves the name of the
type itself and the keyword `local`). -/
inductive Mops where
  | mops (name version : String)
  | repo (name repo : String)
  | local_ (name path : String)
deriving DecidableEq, Repr

/-- The `MopsConfig` struct (`src/toml.rs` lines 357-361). -/
structure MopsConfig where
  version : Option String
  dependencies : List Mops
deriving DecidableEq, Repr

/-- Classification of one `dependencies` entry (`src/toml.rs` lines 381-396):
URL-prefix test first, filesystem-existence test second, registry otherwise.
The filesystem query `Path::new(v).exists()` is the oracle `pathExists`. -/
def classifyDep (pathExists : String → Bool) (lib ver : String) : Mops :=
  if strStartsWith ver "https://github.com" then Mops.repo lib ver
  else if pathExists ver then Mops.local_ lib ver
  else Mops.mops lib ver

/-- Model of `parse_mops_toml` (`src/toml.rs` lines 362-403).  The TOML
document parse performed by the external `toml_edit` crate is abstracted to
its outcome: the optional `package.version` string and the `dependencies`
table as an ordered list of key/value entries.  The classification loop over
the table is modelled faithfully. -/
def parse_mops_toml (pathExists : String → Bool) (version : Option String)
    (deps : List (String × String)) : MopsConfig :=
  { version := version
    dependencies := deps.map (fun e => classifyDep pathExists e.1 e.2) }

/-- `Mops::get_display_key` (`src/toml.rs` lines 457-466). -/
def Mops.get_display_key : Mops → String
  | Mops.mops name version => name ++ "-" ++ version
  | Mops.repo name url => name ++ "-" ++ url
  | Mops.local_ name path => name ++ "-" ++ path

/-- The `Package` struct (`src/toml.rs` lines 17-25): one lockfile record. -/
structure Package where
  name : String
  version : Option String
  source : String
  base_dir : String
  repo : Option RepoInfo
  dependencies : List String
deriving DecidableEq, Repr

/-- The `PackageType` enum (`src/toml.rs` lines 410-414), with owned data in
place of borrows. -/
inductive PackageType where
  | Mops (ver id : String)
  | Local (path : String)
  | Repo (info : RepoInfo)
deriving DecidableEq, Repr

/-- `Package::get_type` (`src/toml.rs` lines 416-428).  The two `unwrap()`
calls (on `repo` for a github source and on `version` for a registry source)
are panics, modelled as `none` via `Option.map`. -/
def Package.get_type (p : Package) : Option PackageType :=
  if strStartsWith p.source "file://" then
    (stripStart "file://" p.source).map PackageType.Local
  else if p.source = "github" then
    p.repo.map PackageType.Repo
  else
    p.version.map (fun v => PackageType.Mops v p.source)

/-- `Package::get_key` (`src/toml.rs` lines 429-436); `none` when `get_type`
panics. -/
def Package.get_key (p : Package) : Option String :=
  p.get_type.map fun t =>
    match t with
    | PackageType.Mops ver _ => p.name ++ "-" ++ ver
    | PackageType.Repo info => p.name ++ "-" ++ info.commit
    | PackageType.Local path => p.name ++ "-" ++ path

/-- `Package::get_path` (`src/toml.rs` lines 437-446); `none` when `get_type`
panics or when the byte slice `&repo.commit[..8]` panics because the commit
is shorter than 8 bytes (commit ids are ASCII, so bytes = characters). -/
def Package.get_path (p : Package) : Option String :=
  match p.get_type with
  | none => none
  | some (PackageType.Mops ver _) => some ("mops/" ++ p.name ++ "-" ++ ver)
  | some (PackageType.Repo info) =>
    if info.commit.length < 8 then none
    else some ("git/" ++ replaceSlashDash info.repo ++ "/" ++ takeChars 8 info.commit)
  | some (PackageType.Local path) => some path

/-- `Package::get_done_file` (`src/toml.rs` lines 447-454); `none` when
`get_type` panics. -/
def Package.get_done_file (p : Package) : Option String :=
  p.get_type.map fun t =>
    match t with
    | PackageType.Mops _ _ => "DONE"
    | PackageType.Repo info => info.get_done_file
    | PackageType.Local _ => ""

/-! ### Model of `src/toml.rs`: reading the lockfile -/

/-- Outcome of reading `mops.lock` from disk.  `missing` is a failing
`fs::read_to_string`; `corrupt` is a file whose contents fail the TOML
document parse or the deserialization into `Packages`; `valid` is a
successful parse. -/
inductive LockfileRead where
  | missing
  | corrupt
  | valid (pkgs : List Package)
deriving DecidableEq, Repr

/-- Model of `parse_mops_lock` (`src/toml.rs` lines 404-409): the `?`
operators propagate both the read error and the parse error. -/
def parse_mops_lock : LockfileRead → Except String (List Package)
  | LockfileRead.missing => Except.error "io error: no such file"
  | LockfileRead.corrupt => Except.error "TOML parse error"
  | LockfileRead.valid pkgs => Except.ok pkgs

/-- Line 63 of `src/toml.rs` (`update_mops_lock`):
`parse_mops_lock(lock).unwrap_or_default()` — the initial package list the
lock update starts from. -/
def initial_lock_packages (r : LockfileRead) : List Package :=
  match parse_mops_lock r with
  | Except.ok pkgs => pkgs
  | Except.error _ => []

/-! ### Model of `src/toml.rs`: one iteration of the graph-walker loop -/

/-- One dependency record inside a registry `get_package_details` response
(spec §6: `config.dependencies: [{name, version, repo}]`). -/
structure RegistryDep where
  name : String
  version : String
  repo : String
deriving DecidableEq, Repr

/-- The parts of a registry `get_package_details` response used by the walker
(`pkg.publication.storage` rendered to text, `pkg.config.base_dir`,
`pkg.config.dependencies`). -/
structure PackageDetails where
  storage : String
  base_dir : String
  dependencies : List RegistryDep
deriving DecidableEq, Repr

/-- Lines 91-100 of `src/toml.rs`: a sub-dependency with an empty version
string is a repo reference via the `repo` field of the record, otherwise a
registry reference. -/
def mopsSubDep (d : RegistryDep) : Mops :=
  if d.version = "" then Mops.repo d.name d.repo
  else Mops.mops d.name d.version

/-- The `Package` built by the registry branch of the walker loop
(`src/toml.rs` lines 74-115). -/
def buildMopsPackage (name version : String) (d : PackageDetails) : Package :=
  { name := name
    version := some version
    source := d.storage
    base_dir := d.base_dir
    repo := none
    dependencies := d.dependencies.map (fun x => (mopsSubDep x).get_display_key) }

/-- The `Package` built by the repo branch of the walker loop (`src/toml.rs`
lines 116-151).  `fetched` is the outcome of `fetch_file(_, "mops.toml")`
followed by `parse_mops_toml`: `none` when the fetch failed (no manifest in
the repo, dependencies empty). -/
def buildRepoPackage (name : String) (info : RepoInfo) (fetched : Option MopsConfig) :
    Package :=
  { name := name
    version :=
      match (match fetched with | some c => c.version | none => none) with
      | some v => some v
      | none => info.guess_version
    source := "github"
    base_dir := info.base_dir
    repo := some info
    dependencies :=
      match fetched with
      | some c => c.dependencies.map Mops.get_display_key
      | none => [] }

/-- The `Package` built by the local branch of the walker loop (`src/toml.rs`
lines 152-186).  `canonical` is the result of `fs::canonicalize`; `found` is
the parsed local `mops.toml` when it exists. -/
def buildLocalPackage (name canonical : String) (found : Option MopsConfig) : Package :=
  { name := name
    version := match found with | some c => c.version | none => none
    source := "file://" ++ canonical
    base_dir := "src"
    repo := none
    dependencies :=
      match found with
      | some c => c.dependencies.map Mops.get_display_key
      | none => [] }

/-- Oracles for the effectful calls made inside the walker loop. -/
structure WalkerOracle where
  github : GithubOracle
  details : String → String → Except String PackageDetails
  fetchConfig : RepoInfo → Except String (Option MopsConfig)
  canonicalize : String → Except String String
  readLocalConfig : String → Except String (Option MopsConfig)

/-- Outcome of one iteration of the walker loop. -/
inductive StepResult where
  | skipped
  | errored (e : String)
  | inserted (pkg : Package)
deriving DecidableEq, Repr

/-- One iteration of the `while let Some(m) = queue.pop_front()` loop of
`update_mops_lock` (`src/toml.rs` lines 72-190), for the dequeued reference
`m` against the current map (modelled as an association list keyed by
DedupKey).  Queue effects are irrelevant to the claims and omitted; the map
is not mutated between the dedup check and the insert, which the model makes
literal by passing the same `map` value to both. -/
def walkerStep (o : WalkerOracle) (map : List (String × Package)) : Mops → StepResult
  | Mops.mops name version =>
    if (map.lookup (name ++ "-" ++ version)).isSome then StepResult.skipped
    else
      match o.details name version with
      | Except.error e => StepResult.errored e
      | Except.ok d => StepResult.inserted (buildMopsPackage name version d)
  | Mops.repo name repoUrl =>
    match parse_github_url o.github repoUrl with
    | Except.error e => StepResult.errored e
    | Except.ok (info, _) =>
      if (map.lookup (name ++ "-" ++ info.commit)).isSome then StepResult.skipped
      else
        match o.fetchConfig info with
        | Except.error e => StepResult.errored e
        | Except.ok fetched => StepResult.inserted (buildRepoPackage name info fetched)
  | Mops.local_ name path =>
    match o.canonicalize path with
    | Except.error e => StepResult.errored e
    | Except.ok canonical =>
      if (map.lookup (name ++ "-" ++ canonical)).isSome then StepResult.skipped
      else
        match o.readLocalConfig path with
        | Except.error e => StepResult.errored e
        | Except.ok found => StepResult.inserted (buildLocalPackage name canonical found)

/-! ### Model of `src/toml.rs`: `resolve_versions` and the written lockfile -/

/-- Comma-separated double-quoted rendering of a string array. -/
def quoteList : List String → String
  | [] => ""
  | [x] => "\"" ++ x ++ "\""
  | x :: rest => "\"" ++ x ++ "\", " ++ quoteList rest

/-- Model of `toml_edit::ser::to_string` on a `Package` record (used by
`resolve_error`, `src/toml.rs` lines 232-240): every field of the record is
rendered, scalars and the dependency array first, the optional nested `repo`
table last. -/
def serializePackage (p : Package) : String :=
  "name = \"" ++ p.name ++ "\"\n" ++
    (match p.version with
     | some v => "version = \"" ++ v ++ "\"\n"
     | none => "") ++
    "source = \"" ++ p.source ++ "\"\n" ++
    "base_dir = \"" ++ p.base_dir ++ "\"\n" ++
    "dependencies = [" ++ quoteList p.dependencies ++ "]\n" ++
    (match p.repo with
     | some r =>
       "\n[repo]\nrepo = \"" ++ r.repo ++ "\"\ntag = \"" ++ r.tag ++
         "\"\ncommit = \"" ++ r.commit ++ "\"\nbase_dir = \"" ++ r.base_dir ++ "\"\n"
     | none => "")

/-- Model of `console::style(_).green()`: ANSI color wrapping. -/
def style_green (s : String) : String :=
  "\x1b[32m" ++ (s ++ "\x1b[0m")

/-- `resolve_error` (`src/toml.rs` lines 232-240): the conflict diagnostic,
carrying both records serialized. -/
def resolve_error (p1 p2 : Package) : String :=
  "Version conflict:\n" ++ (style_green (serializePackage p1) ++
    ("\nand\n\n" ++ style_green (serializePackage p2)))

/-- Model of `parse_version` (`src/toml.rs` lines 229-231):
`ver.parse::<Version>().ok()`. -/
def parse_version_opt (ver : String) : Option Version :=
  parse_version ver

/-- Insertion into a `BTreeMap` modelled as a key-sorted association list:
insert before the first larger key, replace on an equal key. -/
def sortedInsert (k : String) (v : Package) :
    List (String × Package) → List (String × Package)
  | [] => [(k, v)]
  | (k0, v0) :: rest =>
    if strLtB k k0 then (k, v) :: (k0, v0) :: rest
    else if k = k0 then (k, v) :: rest
    else (k0, v0) :: sortedInsert k v rest

/-- The `for pkg in map.into_values()` loop of `resolve_versions`
(`src/toml.rs` lines 208-228), with `res` the accumulating name-keyed
`BTreeMap`. -/
def resolveGo : List Package → List (String × Package) → Except String (List Package)
  | [], res => Except.ok (res.map Prod.snd)
  | pkg :: rest, res =>
    match res.lookup pkg.name with
    | some e =>
      (match e.version, pkg.version with
       | none, _ => Except.error (resolve_error e pkg)
       | some _, none => Except.error (resolve_error e pkg)
       | some ve, some vp =>
         match parse_version_opt ve, parse_version_opt vp with
         | none, _ => Except.error (resolve_error e pkg)
         | some _, none => Except.error (resolve_error e pkg)
         | some ve0, some vp0 =>
           if versionLtB ve0 vp0 then resolveGo rest (sortedInsert pkg.name pkg res)
           else resolveGo rest res)
    | none => resolveGo rest (sortedInsert pkg.name pkg res)

/-- Model of `resolve_versions` (`src/toml.rs` lines 208-228).  The input is
the DedupKey-keyed walker `BTreeMap`, modelled as a key-sorted association
list; `into_values()` yields the values in ascending key order. -/
def resolve_versions (map : List (String × Package)) : Except String (List Package) :=
  resolveGo (map.map Prod.snd) []

/-- The package list written to `mops.lock` by `update_mops_lock`
(`src/toml.rs` lines 192-206): the records of `resolve_versions(map)?` are
appended to the array-of-tables in order. -/
def writtenPackages (map : List (String × Package)) : Except String (List Package) :=
  resolve_versions map

/-! ### Model of `src/toml.rs`: the concurrent fetcher -/

/-- Response of `get_file_meta` (spec §6). -/
structure FileMeta where
  path : String
  chunk_count : Nat
deriving DecidableEq, Repr

/-- Oracles for one registry-package fetch: `get_file_ids` for this package,
`get_file_meta` and `download_chunk` of the storage service, and the
filesystem outcome of `fs::create_dir_all` + `fs::write` per path. -/
structure StorageOracle where
  file_ids : Except String (List String)
  file_meta : String → Except String FileMeta
  chunk : String → Nat → Except String (List Nat)
  writeOut : String → Except String Unit

/-- One completed `fs::write`: path and content bytes. -/
structure WriteEvent where
  path : String
  content : List Nat
deriving DecidableEq, Repr

/-- The chunk loop of `download_file` (`src/toml.rs` lines 336-344): chunks
`0..chunk_count` fetched in index order and concatenated. -/
def fullBlob (o : StorageOracle) (id : String) : Nat → Except String (List Nat)
  | 0 => Except.ok []
  | n + 1 =>
    match fullBlob o id n with
    | Except.error e => Except.error e
    | Except.ok acc =>
      match o.chunk id n with
      | Except.error e => Except.error e
      | Except.ok c => Except.ok (acc ++ c)

/-- Model of `download_file` (`src/toml.rs` lines 326-349): returns the list
of filesystem writes performed and the error that aborted the task, if any. -/
def download_file (o : StorageOracle) (base id : String) :
    List WriteEvent × Option String :=
  match o.file_meta id with
  | Except.error e => ([], some e)
  | Except.ok meta =>
    match fullBlob o id meta.chunk_count with
    | Except.error e => ([], some e)
    | Except.ok blob =>
      match o.writeOut (base ++ "/" ++ meta.path) with
      | Except.error e => ([], some e)
      | Except.ok _ => ([{ path := base ++ "/" ++ meta.path, content := blob }], none)

/-- The `try_join_all(futures)` over the per-file downloads of one package
(`src/toml.rs` lines 312-317), modelled as the cooperative all-or-first-error
composition: writes accumulate, the first error aborts. -/
def download_files (o : StorageOracle) (base : String) :
    List String → List WriteEvent × Option String
  | [] => ([], none)
  | id :: rest =>
    match download_file o base id with
    | (ws, some e) => (ws, some e)
    | (ws, none) =>
      match download_files o base rest with
      | (ws2, r) => (ws ++ ws2, r)

/-- Model of `download_mops_package` (`src/toml.rs` lines 299-325): fetch the
file id list, download every file, then write the empty `DONE` sentinel. -/
def download_mops_package (o : StorageOracle) (base : String) :
    List WriteEvent × Option String :=
  match o.file_ids with
  | Except.error e => ([], some e)
  | Except.ok ids =>
    match download_files o base ids with
    | (ws, some e) => (ws, some e)
    | (ws, none) =>
      match o.writeOut (base ++ "/" ++ "DONE") with
      | Except.error e => (ws, some e)
      | Except.ok _ => (ws ++ [{ path := base ++ "/" ++ "DONE", content := [] }], none)

/-! ### Model of `src/toml.rs`: fetch dispatch (`download_packages_from_lock`) -/

/-- A fetch task pushed onto `mop_futures` or `git_futures`
(`src/toml.rs` lines 270-292). -/
inductive FetchTask where
  | mopsTask (path name version id : String)
  | gitTask (path : String) (info : RepoInfo)
deriving DecidableEq, Repr

/-- The dispatch loop of `download_packages_from_lock` (`src/toml.rs` lines
254-298): for each locked package compute its cache subpath, skip when the
completion sentinel exists, otherwise push a registry or repo fetch task
(local packages never get a task).  `pText` models
`Principal::from_text`; `fsE` models `Path::exists`; panics inside
`get_path`/`get_done_file`/`get_type` are modelled as errors. -/
def dispatch_tasks (pText : String → Except String String)
    (fsE : String → Bool) (root : String) :
    List Package → Except String (List FetchTask × List FetchTask)
  | [] => Except.ok ([], [])
  | pkg :: rest =>
    match pkg.get_path with
    | none => Except.error "panic: get_path"
    | some subpath =>
      match pkg.get_done_file with
      | none => Except.error "panic: get_done_file"
      | some doneFile =>
        if fsE (root ++ "/" ++ subpath ++ "/" ++ doneFile) then
          dispatch_tasks pText fsE root rest
        else
          match pkg.get_type with
          | none => Except.error "panic: get_type"
          | some (PackageType.Mops ver id) =>
            (match pText id with
             | Except.error e => Except.error e
             | Except.ok pid =>
               match dispatch_tasks pText fsE root rest with
               | Except.error e => Except.error e
               | Except.ok (ms, gs) =>
                 Except.ok (FetchTask.mopsTask (root ++ "/" ++ subpath) pkg.name ver pid :: ms, gs))
          | some (PackageType.Repo info) =>
            (match dispatch_tasks pText fsE root rest with
             | Except.error e => Except.error e
             | Except.ok (ms, gs) =>
               Except.ok (ms, FetchTask.gitTask (root ++ "/" ++ subpath) info :: gs))
          | some (PackageType.Local _) => dispatch_tasks pText fsE root rest

/-! ### Concrete fixtures used by the witness theorems -/

/-- A source-host oracle that always fails: any network call would error. -/
def trivialGithubOracle : GithubOracle :=
  { defaultBranch := fun _ => Except.error "offline"
    latestCommit := fun _ _ => Except.error "offline" }

/-- A source-host oracle with fixed successful responses. -/
def okGithubOracle : GithubOracle :=
  { defaultBranch := fun _ => Except.ok "main"
    latestCommit := fun _ t => Except.ok ("sha-" ++ t) }

/-- A registry response carrying a principal-text storage id. -/
def wDetails : PackageDetails :=
  { storage := "ryjl3-tyaaa-aaaaa-aaaba-cai", base_dir := "src", dependencies := [] }

/-- A walker oracle whose registry always answers `wDetails`. -/
def wWalkerOracle : WalkerOracle :=
  { github := trivialGithubOracle
    details := fun _ _ => Except.ok wDetails
    fetchConfig := fun _ => Except.ok none
    canonicalize := fun _ => Except.error "no such path"
    readLocalConfig := fun _ => Except.ok none }

/-- A storage oracle with a single one-chunk file and successful writes. -/
def wStorage : StorageOracle :=
  { file_ids := Except.ok ["id1"]
    file_meta := fun id =>
      if id = "id1" then Except.ok { path := "lib.mo", chunk_count := 1 }
      else Except.error "no meta"
    chunk := fun id i =>
      if id = "id1" && i == 0 then Except.ok [104, 105] else Except.error "no chunk"
    writeOut := fun _ => Except.ok () }

/-- Registry package `base@1.0.0`. -/
def pReg : Package :=
  { name := "base", version := some "1.0.0", source := "ryjl3-tyaaa-aaaaa-aaaba-cai",
    base_dir := "src", repo := none, dependencies := [] }

/-- Registry package `base@1.2.3` (same name, higher version). -/
def pReg2 : Package :=
  { name := "base", version := some "1.2.3", source := "r7inp-6aaaa-aaaaa-aaabq-cai",
    base_dir := "src", repo := none, dependencies := [] }

/-- Registry package named `x` with the (non-semver, but key-relevant) version
string `z`. -/
def pNameX : Package :=
  { name := "x", version := some "z", source := "aaaaa-aa",
    base_dir := "src", repo := none, dependencies := [] }

/-- Registry package named `x-y` with version `1.0.0`. -/
def pNameXY : Package :=
  { name := "x-y", version := some "1.0.0", source := "aaaaa-aa",
    base_dir := "src", repo := none, dependencies := [] }

/-- A repository pin whose commit string is shorter than 8 bytes. -/
def rShort : RepoInfo := { repo := "o/r", tag := "v1", commit := "abc", base_dir := "src" }

/-- A github-source package with the short commit `rShort`. -/
def pShortCommit : Package :=
  { name := "lib", version := none, source := "github", base_dir := "src",
    repo := some rShort, dependencies := [] }

/-! ## Theorems

General lemmas about the string-primitive models first, then one theorem per
claim (with its witness or counterexample). -/

theorem strData_append (s t : String) : (s ++ t).data = s.data ++ t.data := rfl

theorem strMk_data (s : String) : String.mk s.data = s := rfl

theorem strDataInj {s t : String} (h : s.data = t.data) : s = t :=
  congrArg String.mk h

theorem listIsPrefixOf_append (p r : List Char) : listIsPrefixOf p (p ++ r) = true := by
  induction p with
  | nil => rfl
  | cons a l ih => simp [listIsPrefixOf, ih]

theorem listSplitChar_not_mem {c : Char} {l : List Char} (h : c ∉ l) :
    listSplitChar c l = [l] := by
  induction l with
  | nil => rfl
  | cons x xs ih =>
    have hx : ¬ x = c := fun he => h (by simp [he])
    have hxs : c ∉ xs := fun hm => h (List.mem_cons_of_mem _ hm)
    simp [listSplitChar, hx, ih hxs]

theorem listSplitChar_append {c : Char} {a : List Char} (b : List Char) (h : c ∉ a) :
    listSplitChar c (a ++ c :: b) = a :: listSplitChar c b := by
  induction a with
  | nil => simp [listSplitChar]
  | cons x xs ih =>
    have hx : ¬ x = c := fun he => h (by simp [he])
    have hxs : c ∉ xs := fun hm => h (List.mem_cons_of_mem _ hm)
    simp [listSplitChar, hx, ih hxs]

theorem stripStart_append (p r : String) : stripStart p (p ++ r) = some r := by
  unfold stripStart
  rw [strData_append, listIsPrefixOf_append]
  simp [List.drop_left, strMk_data]

theorem strStartsWith_append (p r : String) : strStartsWith (p ++ r) p = true := by
  show listIsPrefixOf p.data (p ++ r).data = true
  rw [strData_append]
  exact listIsPrefixOf_append _ _

theorem strEndsWith_append (b p : String) : strEndsWith (b ++ p) p = true := by
  show listIsPrefixOf p.data.reverse (b ++ p).data.reverse = true
  rw [strData_append, List.reverse_append]
  exact listIsPrefixOf_append _ _

theorem stripEnd_append (p b : String) : stripEnd p (b ++ p) = some b := by
  unfold stripEnd
  rw [strData_append, List.reverse_append, listIsPrefixOf_append]
  simp [List.length_append, Nat.add_sub_cancel, List.take_left, strMk_data]

theorem rustSplit_sep {c : Char} (a b : String) (h : c ∉ a.data) :
    rustSplit c (a ++ (String.mk [c] ++ b)) = a :: rustSplit c b := by
  show (listSplitChar c (a.data ++ c :: b.data)).map String.mk = _
  rw [listSplitChar_append b.data h]
  simp [rustSplit, strMk_data]

theorem rustSplit_no {c : Char} (a : String) (h : c ∉ a.data) : rustSplit c a = [a] := by
  unfold rustSplit
  rw [listSplitChar_not_mem h]
  simp [strMk_data]

theorem strAppend_left_cancel {a x y : String} (h : a ++ x = a ++ y) : x = y := by
  apply strDataInj
  have h2 := congrArg String.data h
  rw [strData_append, strData_append] at h2
  exact List.append_cancel_left h2

/-- C1: for every dependency value string `v` in the `dependencies` table of
a manifest, the parser classifies `v` as a Repo reference iff `v` starts with
`https://github.com`; otherwise as a Local reference iff `v` exists as a
filesystem path; otherwise as a Registry reference — the tests applied in
exactly that order, for every entry of the table. -/
theorem claim_C1 (pathExists : String → Bool) (lib v : String) :
    (classifyDep pathExists lib v = Mops.repo lib v ↔
      strStartsWith v "https://github.com" = true) ∧
    (classifyDep pathExists lib v = Mops.local_ lib v ↔
      (strStartsWith v "https://github.com" = false ∧ pathExists v = true)) ∧
    (classifyDep pathExists lib v = Mops.mops lib v ↔
      (strStartsWith v "https://github.com" = false ∧ pathExists v = false)) ∧
    (∀ (ver : Option String) (deps : List (String × String)),
      (parse_mops_toml pathExists ver deps).dependencies =
        deps.map (fun e => classifyDep pathExists e.1 e.2)) := by
  refine ⟨?_, ?_, ?_, fun _ _ => rfl⟩ <;>
    unfold classifyDep <;>
    cases hs : strStartsWith v "https://github.com" <;>
    cases hp : pathExists v <;>
    simp [hs, hp]

/-- C6 counterexample: a lockfile that exists but fails to parse makes
`parse_mops_lock` return an error, yet `update_mops_lock` (line 63,
`unwrap_or_default`) starts from the empty package list exactly as for a
missing file — the corrupt case is not fatal. -/
theorem claim_C6_cex :
    parse_mops_lock LockfileRead.corrupt = Except.error "TOML parse error" ∧
    initial_lock_packages LockfileRead.corrupt = [] ∧
    initial_lock_packages LockfileRead.corrupt = initial_lock_packages LockfileRead.missing :=
  ⟨rfl, rfl, rfl⟩

/-- C6 (amended): on reading the lockfile in `update_mops_lock`, both a
missing file and a file that exists but fails to parse are treated as an
empty package list, and the run proceeds from an empty map in both cases
(`parse_mops_lock` itself reports errors for both, but the caller discards
them via `unwrap_or_default`). -/
theorem claim_C6 :
    initial_lock_packages LockfileRead.missing = [] ∧
    initial_lock_packages LockfileRead.corrupt = [] ∧
    (∀ pkgs, initial_lock_packages (LockfileRead.valid pkgs) = pkgs) ∧
    (∃ e, parse_mops_lock LockfileRead.missing = Except.error e) ∧
    (∃ e, parse_mops_lock LockfileRead.corrupt = Except.error e) :=
  ⟨rfl, rfl, fun _ => rfl, ⟨_, rfl⟩, ⟨_, rfl⟩⟩

/-- C10: computing the cache subpath of a Repo-kind package slices the first
8 bytes of the commit without a length check: for every package whose source
is `github` (with a repo pin present, as the preceding `unwrap` demands),
`get_path` panics exactly when the commit is shorter than 8 bytes, and is
total (returns a path) when the commit has at least 8 bytes. -/
theorem claim_C10 (p : Package) (info : RepoInfo)
    (hsrc : p.source = "github") (hrepo : p.repo = some info) :
    (info.commit.length < 8 → p.get_path = none) ∧
    (8 ≤ info.commit.length → ∃ s, p.get_path = some s) := by
  have hsw : strStartsWith "github" "file://" = false := rfl
  have htype : p.get_type = some (PackageType.Repo info) := by
    unfold Package.get_type
    rw [hsrc, hrepo]
    simp [hsw]
  constructor
  · intro hlt
    unfold Package.get_path
    rw [htype]
    simp [hlt]
  · intro hge
    have hp : p.get_path =
        some ("git/" ++ replaceSlashDash info.repo ++ "/" ++ takeChars 8 info.commit) := by
      unfold Package.get_path
      rw [htype]
      simp [Nat.not_lt.2 hge]
    exact ⟨_, hp⟩

/-- C10 witness: the concrete github package with commit `abc` (3 bytes)
makes `get_path` panic. -/
theorem claim_C10_witness : pShortCommit.get_path = none :=
  (claim_C10 pShortCommit rShort rfl rfl).1 (by decide)

/-! ### Lemmas about `parse_github_url` (shared by the C5 and C8 theorems) -/

theorem stripDotGit_append_git (r : String) : stripDotGit (r ++ ".git") = r := by
  unfold stripDotGit
  rw [strEndsWith_append]
  simp [stripEnd_append]

theorem parseTagCommit_frag (r t c : String)
    (h1 : '#' ∉ r.data) (h2 : '#' ∉ t.data) (h3 : '@' ∉ t.data)
    (h4 : '#' ∉ c.data) (h5 : '@' ∉ c.data) :
    parseTagCommit (r ++ ("#" ++ (t ++ ("@" ++ c)))) = (r, some t, some c) := by
  unfold parseTagCommit
  have hmem : '#' ∉ (t ++ ("@" ++ c)).data := by
    intro hm
    have hd : (t ++ ("@" ++ c)).data = t.data ++ ('@' :: c.data) := rfl
    rw [hd] at hm
    rcases List.mem_append.1 hm with h | h
    · exact h2 h
    · rcases List.mem_cons.1 h with h | h
      · exact absurd h (by decide)
      · exact h4 h
  have s1 : rustSplit '#' (r ++ ("#" ++ (t ++ ("@" ++ c)))) = [r, t ++ ("@" ++ c)] := by
    have e := rustSplit_sep r (t ++ ("@" ++ c)) h1
    rw [rustSplit_no _ hmem] at e
    exact e
  have s2 : rustSplit '@' (t ++ ("@" ++ c)) = [t, c] := by
    have e := rustSplit_sep t c h3
    rw [rustSplit_no c h5] at e
    exact e
  simp only [s1, s2]

theorem parse_github_url_frag (o : GithubOracle) (owner rp ref commit : String)
    (h1 : '/' ∉ owner.data) (h2 : '/' ∉ rp.data) (h3 : '#' ∉ rp.data)
    (h4 : '/' ∉ ref.data) (h5 : '#' ∉ ref.data) (h6 : '@' ∉ ref.data)
    (h7 : '/' ∉ commit.data) (h8 : '#' ∉ commit.data) (h9 : '@' ∉ commit.data)
    (h10 : strEndsWith (rp ++ ("#" ++ (ref ++ ("@" ++ commit)))) ".git" = false) :
    parse_github_url o
        ("https://github.com/" ++ (owner ++ ("/" ++ (rp ++ ("#" ++ (ref ++ ("@" ++ commit)))))))
      = Except.ok
          ({ repo := owner ++ "/" ++ rp, tag := ref, commit := commit, base_dir := "src" },
           []) := by
  have hslash : '/' ∉ (rp ++ ("#" ++ (ref ++ ("@" ++ commit)))).data := by
    intro hm
    have hd : (rp ++ ("#" ++ (ref ++ ("@" ++ commit)))).data
        = rp.data ++ ('#' :: (ref.data ++ ('@' :: commit.data))) := rfl
    rw [hd] at hm
    rcases List.mem_append.1 hm with h | h
    · exact h2 h
    · rcases List.mem_cons.1 h with h | h
      · exact absurd h (by decide)
      · rcases List.mem_append.1 h with h | h
        · exact h4 h
        · rcases List.mem_cons.1 h with h | h
          · exact absurd h (by decide)
          · exact h7 h
  have e2 : rustSplit '/' (owner ++ ("/" ++ (rp ++ ("#" ++ (ref ++ ("@" ++ commit))))))
      = [owner, rp ++ ("#" ++ (ref ++ ("@" ++ commit)))] := by
    have e := rustSplit_sep owner (rp ++ ("#" ++ (ref ++ ("@" ++ commit)))) h1
    rw [rustSplit_no _ hslash] at e
    exact e
  have e3 : stripDotGit (rp ++ ("#" ++ (ref ++ ("@" ++ commit))))
      = rp ++ ("#" ++ (ref ++ ("@" ++ commit))) := by
    simp [stripDotGit, h10]
  have e4 := parseTagCommit_frag rp ref commit h3 h5 h6 h8 h9
  unfold parse_github_url
  simp only [stripStart_append, e2, e3, e4, resolveTag, resolveCommit]
  rfl

theorem parse_github_url_bare (o : GithubOracle) (owner rp branch sha : String)
    (h1 : '/' ∉ owner.data) (h2 : '/' ∉ rp.data) (h3 : '#' ∉ (stripDotGit rp).data)
    (hb : o.defaultBranch (owner ++ "/" ++ stripDotGit rp) = Except.ok branch)
    (hc : o.latestCommit (owner ++ "/" ++ stripDotGit rp) branch = Except.ok sha) :
    parse_github_url o ("https://github.com/" ++ (owner ++ ("/" ++ rp)))
      = Except.ok
          ({ repo := owner ++ "/" ++ stripDotGit rp, tag := branch, commit := sha,
             base_dir := "src" },
           [GithubCall.defaultBranch (owner ++ "/" ++ stripDotGit rp),
            GithubCall.latestCommit (owner ++ "/" ++ stripDotGit rp) branch]) := by
  have e2 : rustSplit '/' (owner ++ ("/" ++ rp)) = [owner, rp] := by
    have e := rustSplit_sep owner rp h1
    rw [rustSplit_no rp h2] at e
    exact e
  have e4 : parseTagCommit (stripDotGit rp) = (stripDotGit rp, none, none) := by
    unfold parseTagCommit
    rw [rustSplit_no _ h3]
  unfold parse_github_url
  simp only [stripStart_append, e2, e4, resolveTag, resolveCommit, hb, hc]
  rfl

/-- C5: for every source-host URL of the form
`https://github.com/<owner>/<repo>#<ref>@<commit>` (the four components free
of the delimiter characters, and the path segment not ending in `.git`),
`parse_github_url` performs no network requests (the call list is empty) and
returns a `RepoInfo` with repo `<owner>/<repo>`, tag `<ref>` and commit
`<commit>`. -/
theorem claim_C5 (o : GithubOracle) (owner repoName ref commit : String)
    (h1 : '/' ∉ owner.data)
    (h2 : '/' ∉ repoName.data) (h3 : '#' ∉ repoName.data)
    (h4 : '/' ∉ ref.data) (h5 : '#' ∉ ref.data) (h6 : '@' ∉ ref.data)
    (h7 : '/' ∉ commit.data) (h8 : '#' ∉ commit.data) (h9 : '@' ∉ commit.data)
    (h10 : strEndsWith (repoName ++ ("#" ++ (ref ++ ("@" ++ commit)))) ".git" = false) :
    parse_github_url o
        ("https://github.com/" ++ (owner ++ ("/" ++ (repoName ++ ("#" ++ (ref ++ ("@" ++ commit)))))))
      = Except.ok
          ({ repo := owner ++ "/" ++ repoName, tag := ref, commit := commit, base_dir := "src" },
           []) :=
  parse_github_url_frag o owner repoName ref commit h1 h2 h3 h4 h5 h6 h7 h8 h9 h10

/-- C5 witness: the scenario-4 URL of the spec, evaluated with an oracle that
would fail on any network call. -/
theorem claim_C5_witness :
    parse_github_url trivialGithubOracle
        "https://github.com/icdevsorg/candy_library#v0.3.0@907a4e7363aac6c6a4e114ebc73e3d3f21e138af"
      = Except.ok
          ({ repo := "icdevsorg/candy_library", tag := "v0.3.0",
             commit := "907a4e7363aac6c6a4e114ebc73e3d3f21e138af", base_dir := "src" },
           []) :=
  claim_C5 trivialGithubOracle "icdevsorg" "candy_library" "v0.3.0"
    "907a4e7363aac6c6a4e114ebc73e3d3f21e138af"
    (by decide) (by decide) (by decide) (by decide) (by decide) (by decide)
    (by decide) (by decide) (by decide) (by decide)

/-- C8 counterexample: on the accepted URL
`https://github.com/owner/lib.git#v1@0123456789abcdef0123456789abcdef01234567`,
where the `#<ref>@<commit>` fragment follows the `.git` suffix, the returned
repo field is `owner/lib.git` — the `.git` suffix is not omitted, because the
suffix test runs on the whole path segment before the fragment is split off. -/
theorem claim_C8_cex :
    parse_github_url trivialGithubOracle
        "https://github.com/owner/lib.git#v1@0123456789abcdef0123456789abcdef01234567"
      = Except.ok
          ({ repo := "owner/lib.git", tag := "v1",
             commit := "0123456789abcdef0123456789abcdef01234567", base_dir := "src" },
           []) ∧
    ("owner/lib.git" : String) ≠ "owner/lib" := by
  exact ⟨rfl, by decide⟩

/-- C8 (amended): the `.git` suffix test is applied to the whole second path
segment before the `#` fragment is split off, so the suffix is omitted from
the repo field exactly when no fragment follows it: a bare `<repo>.git` URL
yields repo `<owner>/<repo>` (after resolving ref and commit over the
network), while `<repo>.git#<ref>@<commit>` keeps `.git` in the repo field. -/
theorem claim_C8 :
    (∀ (o : GithubOracle) (owner repoName branch sha : String),
      '/' ∉ owner.data → '/' ∉ repoName.data → '#' ∉ repoName.data →
      o.defaultBranch (owner ++ "/" ++ repoName) = Except.ok branch →
      o.latestCommit (owner ++ "/" ++ repoName) branch = Except.ok sha →
      parse_github_url o ("https://github.com/" ++ (owner ++ ("/" ++ (repoName ++ ".git"))))
        = Except.ok
            ({ repo := owner ++ "/" ++ repoName, tag := branch, commit := sha,
               base_dir := "src" },
             [GithubCall.defaultBranch (owner ++ "/" ++ repoName),
              GithubCall.latestCommit (owner ++ "/" ++ repoName) branch])) ∧
    (∀ (o : GithubOracle) (owner repoName ref commit : String),
      '/' ∉ owner.data → '/' ∉ repoName.data → '#' ∉ repoName.data →
      '/' ∉ ref.data → '#' ∉ ref.data → '@' ∉ ref.data →
      '/' ∉ commit.data → '#' ∉ commit.data → '@' ∉ commit.data →
      strEndsWith ((repoName ++ ".git") ++ ("#" ++ (ref ++ ("@" ++ commit)))) ".git" = false →
      parse_github_url o
          ("https://github.com/" ++
            (owner ++ ("/" ++ ((repoName ++ ".git") ++ ("#" ++ (ref ++ ("@" ++ commit)))))))
        = Except.ok
            ({ repo := owner ++ "/" ++ (repoName ++ ".git"), tag := ref, commit := commit,
               base_dir := "src" },
             [])) := by
  constructor
  · intro o owner repoName branch sha h1 h2 h3 hb hc
    have hsd := stripDotGit_append_git repoName
    have h2g : '/' ∉ (repoName ++ ".git").data := by
      intro hm
      rcases List.mem_append.1 hm with h | h
      · exact h2 h
      · exact absurd h (by decide)
    have e := parse_github_url_bare o owner (repoName ++ ".git") branch sha h1 h2g
      (by rw [hsd]; exact h3) (by rw [hsd]; exact hb) (by rw [hsd]; exact hc)
    rw [hsd] at e
    exact e
  · intro o owner repoName ref commit h1 h2 h3 h4 h5 h6 h7 h8 h9 h10
    have h2g : '/' ∉ (repoName ++ ".git").data := by
      intro hm
      rcases List.mem_append.1 hm with h | h
      · exact h2 h
      · exact absurd h (by decide)
    have h3g : '#' ∉ (repoName ++ ".git").data := by
      intro hm
      rcases List.mem_append.1 hm with h | h
      · exact h3 h
      · exact absurd h (by decide)
    exact parse_github_url_frag o owner (repoName ++ ".git") ref commit
      h1 h2g h3g h4 h5 h6 h7 h8 h9 h10

/-- C8 witness: both amended behaviors at concrete URLs — a bare `.git` URL
loses the suffix (two API calls), a fragment URL keeps it (no API calls). -/
theorem claim_C8_witness :
    parse_github_url okGithubOracle "https://github.com/chenyan2002/motoko-splay.git"
      = Except.ok
          ({ repo := "chenyan2002/motoko-splay", tag := "main", commit := "sha-main",
             base_dir := "src" },
           [GithubCall.defaultBranch "chenyan2002/motoko-splay",
            GithubCall.latestCommit "chenyan2002/motoko-splay" "main"]) ∧
    parse_github_url okGithubOracle
        "https://github.com/owner/lib.git#v1@0123456789abcdef0123456789abcdef01234567"
      = Except.ok
          ({ repo := "owner/lib.git", tag := "v1",
             commit := "0123456789abcdef0123456789abcdef01234567", base_dir := "src" },
           []) :=
  ⟨claim_C8.1 okGithubOracle "chenyan2002" "motoko-splay" "main" "sha-main"
      (by decide) (by decide) (by decide) rfl rfl,
   claim_C8.2 okGithubOracle "owner" "lib" "v1" "0123456789abcdef0123456789abcdef01234567"
      (by decide) (by decide) (by decide) (by decide) (by decide) (by decide)
      (by decide) (by decide) (by decide) (by decide)⟩

/-! ### Lemmas about `resolve_versions` (claims C2 and C7) -/

theorem resolve_error_contains_left (p q : Package) :
    strContains (resolve_error p q) (serializePackage p) := by
  unfold strContains resolve_error style_green
  refine ⟨("Version conflict:\n" ++ "\x1b[32m").data,
    ("\x1b[0m" ++ ("\nand\n\n" ++ ("\x1b[32m" ++ (serializePackage q ++ "\x1b[0m")))).data, ?_⟩
  simp [strData_append, List.append_assoc]

theorem resolve_error_contains_right (p q : Package) :
    strContains (resolve_error p q) (serializePackage q) := by
  unfold strContains resolve_error style_green
  refine ⟨("Version conflict:\n" ++ ("\x1b[32m" ++ (serializePackage p ++ "\x1b[0m")) ++
      ("\nand\n\n" ++ "\x1b[32m")).data, ("\x1b[0m" : String).data, ?_⟩
  simp [strData_append, List.append_assoc]

theorem listLtB_irrefl (a : List Char) : listLtB a a = false := by
  induction a with
  | nil => rfl
  | cons a0 l ih => simp [listLtB, ih]

theorem listLtB_trans : ∀ {a b c : List Char}, listLtB a b = true → listLtB b c = true →
    listLtB a c = true := by
  intro a
  induction a with
  | nil =>
    intro b c hab hbc
    cases b with
    | nil => exact hbc
    | cons b0 bs =>
      cases c with
      | nil => simp [listLtB] at hbc
      | cons c0 cs => simp [listLtB]
  | cons a0 l ih =>
    intro b c hab hbc
    cases b with
    | nil => simp [listLtB] at hab
    | cons b0 bs =>
      cases c with
      | nil => simp [listLtB] at hbc
      | cons c0 cs =>
        simp only [listLtB] at hab hbc ⊢
        by_cases h1 : a0 = b0
        · by_cases h2 : b0 = c0
          · subst h1; subst h2
            simp only [if_pos rfl] at hab hbc ⊢
            exact ih hab hbc
          · subst h1
            simp only [if_pos rfl] at hab
            simp only [if_neg h2] at hbc ⊢
            exact hbc
        · by_cases h2 : b0 = c0
          · subst h2
            simp only [if_neg h1] at hab ⊢
            exact hab
          · simp only [if_neg h1] at hab
            simp only [if_neg h2] at hbc
            have ha0 : a0 < b0 := of_decide_eq_true hab
            have hb0 : b0 < c0 := of_decide_eq_true hbc
            have hac : a0 < c0 := lt_trans ha0 hb0
            simp [if_neg (ne_of_lt hac), hac]

theorem listLtB_connex : ∀ {a b : List Char}, a ≠ b →
    listLtB a b = true ∨ listLtB b a = true := by
  intro a
  induction a with
  | nil =>
    intro b hne
    cases b with
    | nil => exact absurd rfl hne
    | cons b0 bs => left; simp [listLtB]
  | cons a0 l ih =>
    intro b hne
    cases b with
    | nil => right; simp [listLtB]
    | cons b0 bs =>
      by_cases h : a0 = b0
      · subst h
        have hne2 : l ≠ bs := fun he => hne (by rw [he])
        rcases ih hne2 with h | h
        · left; simp [listLtB, h]
        · right; simp [listLtB, h]
      · rcases lt_trichotomy a0 b0 with h1 | h1 | h1
        · left; simp [listLtB, h, h1]
        · exact absurd h1 h
        · right; simp [listLtB, Ne.symm h, h1]

theorem strLtB_trans {a b c : String} (h1 : strLtB a b = true) (h2 : strLtB b c = true) :
    strLtB a c = true :=
  listLtB_trans h1 h2

theorem strLtB_connex {a b : String} (h : a ≠ b) :
    strLtB a b = true ∨ strLtB b a = true :=
  listLtB_connex (fun he => h (strDataInj he))

theorem strLtB_irrefl (a : String) : strLtB a a = false :=
  listLtB_irrefl a.data

theorem sortedInsert_mem {k : String} {v : Package} {l : List (String × Package)} {x}
    (hx : x ∈ sortedInsert k v l) : x = (k, v) ∨ x ∈ l := by
  induction l with
  | nil => simpa [sortedInsert] using hx
  | cons a rest ih =>
    rcases a with ⟨k0, v0⟩
    simp only [sortedInsert] at hx
    split_ifs at hx with h1 h2
    · rcases List.mem_cons.1 hx with h | h
      · exact Or.inl h
      · exact Or.inr h
    · rcases List.mem_cons.1 hx with h | h
      · exact Or.inl h
      · exact Or.inr (List.mem_cons_of_mem _ h)
    · rcases List.mem_cons.1 hx with h | h
      · exact Or.inr (by simp [h])
      · rcases ih h with h | h
        · exact Or.inl h
        · exact Or.inr (List.mem_cons_of_mem _ h)

theorem sortedInsert_pairwise {k : String} {v : Package} {l : List (String × Package)}
    (hl : l.Pairwise (fun a b => strLtB a.1 b.1 = true)) :
    (sortedInsert k v l).Pairwise (fun a b => strLtB a.1 b.1 = true) := by
  induction l with
  | nil => simp [sortedInsert]
  | cons a rest ih =>
    rcases a with ⟨k0, v0⟩
    rcases List.pairwise_cons.1 hl with ⟨ha, hrest⟩
    simp only [sortedInsert]
    split_ifs with h1 h2
    · refine List.pairwise_cons.2 ⟨?_, hl⟩
      intro x hx
      rcases List.mem_cons.1 hx with h | h
      · rw [h]; exact h1
      · exact strLtB_trans h1 (ha x h)
    · refine List.pairwise_cons.2 ⟨?_, hrest⟩
      intro x hx
      rw [h2]
      exact ha x hx
    · refine List.pairwise_cons.2 ⟨?_, ih hrest⟩
      intro x hx
      rcases sortedInsert_mem hx with h | h
      · rw [h]
        rcases strLtB_connex h2 with h3 | h3
        · exact absurd h3 h1
        · exact h3
      · exact ha x h

theorem sortedInsert_keys {k : String} {v : Package} {l : List (String × Package)}
    (hk : ∀ x ∈ l, Prod.fst x = (Prod.snd x).name) (hkv : k = v.name) :
    ∀ x ∈ sortedInsert k v l, Prod.fst x = (Prod.snd x).name := by
  intro x hx
  rcases sortedInsert_mem hx with h | h
  · rw [h]; exact hkv
  · exact hk x h

theorem resolveGo_sorted (ps : List Package) :
    ∀ (res : List (String × Package)) (l : List Package),
      res.Pairwise (fun a b => strLtB a.1 b.1 = true) →
      (∀ x ∈ res, Prod.fst x = (Prod.snd x).name) →
      resolveGo ps res = Except.ok l →
      l.Pairwise (fun a b => strLtB a.name b.name = true) := by
  induction ps with
  | nil =>
    intro res l hres hkeys h
    simp only [resolveGo, Except.ok.injEq] at h
    subst h
    rw [List.pairwise_map]
    refine hres.imp_of_mem ?_
    intro a b ha hb hab
    rw [← hkeys a ha, ← hkeys b hb]
    exact hab
  | cons pkg rest ih =>
    intro res l hres hkeys h
    cases hlk : res.lookup pkg.name with
    | none =>
      simp only [resolveGo, hlk] at h
      exact ih _ _ (sortedInsert_pairwise hres) (sortedInsert_keys hkeys rfl) h
    | some e =>
      simp only [resolveGo, hlk] at h
      cases hv1 : e.version with
      | none => simp [hv1] at h
      | some ve =>
        cases hv2 : pkg.version with
        | none => simp [hv1, hv2] at h
        | some vp =>
          simp only [hv1, hv2] at h
          cases hp1 : parse_version_opt ve with
          | none => simp [hp1] at h
          | some a =>
            cases hp2 : parse_version_opt vp with
            | none => simp [hp1, hp2] at h
            | some b =>
              simp only [hp1, hp2] at h
              cases hvb : versionLtB a b with
              | true =>
                simp only [hvb, if_true] at h
                exact ih _ _ (sortedInsert_pairwise hres) (sortedInsert_keys hkeys rfl) h
              | false =>
                simp only [hvb, if_false] at h
                exact ih _ _ hres hkeys h

/-- C2: for a walker map holding two records of the same name, the resolver
keeps exactly one of them — the one whose version parses as the strictly
higher semantic version (the earlier record when the parsed versions are
equal) — and when either version is absent or fails to parse as semver it
returns the conflict error, which carries both full records serialized, and
produces no output list. -/
theorem claim_C2 (k1 k2 : String) (p1 p2 : Package) (hname : p2.name = p1.name) :
    (∀ s1 s2 v1 v2, p1.version = some s1 → p2.version = some s2 →
      parse_version_opt s1 = some v1 → parse_version_opt s2 = some v2 →
      resolve_versions [(k1, p1), (k2, p2)]
        = Except.ok [if versionLtB v1 v2 then p2 else p1]) ∧
    ((p1.version = none ∨ p2.version = none ∨
      (∃ s, p1.version = some s ∧ parse_version_opt s = none) ∨
      (∃ s, p2.version = some s ∧ parse_version_opt s = none)) →
      resolve_versions [(k1, p1), (k2, p2)] = Except.error (resolve_error p1 p2) ∧
      strContains (resolve_error p1 p2) (serializePackage p1) ∧
      strContains (resolve_error p1 p2) (serializePackage p2)) := by
  have hlook : List.lookup p1.name [(p1.name, p1)] = some p1 := by
    simp [List.lookup]
  constructor
  · intro s1 s2 v1 v2 hv1 hv2 hp1 hp2
    cases hvb : versionLtB v1 v2 with
    | true =>
      simp [resolve_versions, resolveGo, sortedInsert, hname, hlook, hv1, hv2, hp1, hp2,
        hvb, strLtB_irrefl]
    | false =>
      simp [resolve_versions, resolveGo, sortedInsert, hname, hlook, hv1, hv2, hp1, hp2, hvb]
  · intro hcase
    refine ⟨?_, resolve_error_contains_left p1 p2, resolve_error_contains_right p1 p2⟩
    rcases hcase with h | h | ⟨s, hs, hps⟩ | ⟨s, hs, hps⟩
    · simp [resolve_versions, resolveGo, sortedInsert, hname, hlook, h]
    · cases hv : p1.version with
      | none => simp [resolve_versions, resolveGo, sortedInsert, hname, hlook, hv]
      | some s1 => simp [resolve_versions, resolveGo, sortedInsert, hname, hlook, hv, h]
    · cases hv2 : p2.version with
      | none => simp [resolve_versions, resolveGo, sortedInsert, hname, hlook, hs, hv2]
      | some s2 => simp [resolve_versions, resolveGo, sortedInsert, hname, hlook, hs, hv2, hps]
    · cases hv1 : p1.version with
      | none => simp [resolve_versions, resolveGo, sortedInsert, hname, hlook, hv1]
      | some s1 =>
        cases hpp : parse_version_opt s1 with
        | none => simp [resolve_versions, resolveGo, sortedInsert, hname, hlook, hv1, hs, hpp]
        | some v => simp [resolve_versions, resolveGo, sortedInsert, hname, hlook, hv1, hs,
            hpp, hps]

/-- C2 witness: two `base` records with versions `1.0.0` and `1.2.3`; the
resolver keeps the `1.2.3` record. -/
theorem claim_C2_witness :
    resolve_versions [("base-1.0.0", pReg), ("base-1.2.3", pReg2)] = Except.ok [pReg2] := by
  have h := (claim_C2 "base-1.0.0" "base-1.2.3" pReg pReg2 rfl).1 "1.0.0" "1.2.3"
    { major := 1, minor := 0, patch := 0, pre := [], build := "" }
    { major := 1, minor := 2, patch := 3, pre := [], build := "" }
    rfl rfl rfl rfl
  simpa using h

/-- C7 counterexample: a run over DedupKeys `x-y-1.0.0 < x-z` (two distinct
names `x` and `x-y`) writes the records in name order `[x, x-y]`, whose
DedupKeys `x-z, x-y-1.0.0` are not ascending — the written file is not
sorted by DedupKey. -/
theorem claim_C7_cex :
    strLtB "x-y-1.0.0" "x-z" = true ∧
    pNameX.get_key = some "x-z" ∧
    pNameXY.get_key = some "x-y-1.0.0" ∧
    writtenPackages [("x-y-1.0.0", pNameXY), ("x-z", pNameX)] = Except.ok [pNameX, pNameXY] ∧
    strLtB "x-z" "x-y-1.0.0" = false ∧ ("x-z" : String) ≠ "x-y-1.0.0" :=
  ⟨by decide, rfl, rfl, rfl, by decide, by decide⟩

/-- C7 (amended): for every run that writes a lockfile, the records appear
sorted strictly ascending by package name (the resolver re-keys its output
map by name); name order does not in general agree with DedupKey order. -/
theorem claim_C7 (map : List (String × Package)) (l : List Package)
    (h : writtenPackages map = Except.ok l) :
    l.Pairwise (fun a b => strLtB a.name b.name = true) :=
  resolveGo_sorted (map.map Prod.snd) [] l (by simp) (by simp) h

/-- C7 witness: the two-record run keeps `base@1.2.3` and the written list is
(trivially) sorted by name. -/
theorem claim_C7_witness :
    List.Pairwise (fun a b : Package => strLtB a.name b.name = true) [pReg2] :=
  claim_C7 [("base-1.0.0", pReg), ("base-1.2.3", pReg2)] [pReg2] rfl

/-- C3: in every iteration of the graph-walker loop that reaches the insert,
the DedupKey computed by the dedup check at the start of the iteration
equals the key `Package::get_key` later computes for the constructed
package, and the map (unchanged in between) has no entry at that key — so
the insert is a first insert and the asserted duplicate-insert branch is
unreachable.  Hypothesis `hstorage` records that registry storage ids are
principal texts, which never equal `github` and never start with `file://`
(their text form is dash-separated base32 groups). -/
theorem claim_C3 (o : WalkerOracle) (map : List (String × Package)) (m : Mops) (pkg : Package)
    (hstorage : ∀ n v d, o.details n v = Except.ok d →
      strStartsWith d.storage "file://" = false ∧ d.storage ≠ "github")
    (hstep : walkerStep o map m = StepResult.inserted pkg) :
    ∃ k, pkg.get_key = some k ∧ map.lookup k = none := by
  cases m with
  | mops name version =>
    cases hc : (map.lookup (name ++ "-" ++ version)).isSome with
    | true => simp [walkerStep, hc] at hstep
    | false =>
      cases hd : o.details name version with
      | error e => simp [walkerStep, hc, hd] at hstep
      | ok d =>
        simp only [walkerStep, hc, hd, Bool.false_eq_true, if_false,
          StepResult.inserted.injEq] at hstep
        obtain ⟨hs1, hs2⟩ := hstorage name version d hd
        refine ⟨name ++ "-" ++ version, ?_, ?_⟩
        · rw [← hstep]
          simp [Package.get_key, Package.get_type, buildMopsPackage, hs1, hs2]
        · exact Option.not_isSome_iff_eq_none.1 (by simp [hc])
  | repo name repoUrl =>
    cases hg : parse_github_url o.github repoUrl with
    | error e => simp [walkerStep, hg] at hstep
    | ok pr =>
      rcases pr with ⟨info, calls⟩
      cases hc : (map.lookup (name ++ "-" ++ info.commit)).isSome with
      | true => simp [walkerStep, hg, hc] at hstep
      | false =>
        cases hf : o.fetchConfig info with
        | error e => simp [walkerStep, hg, hc, hf] at hstep
        | ok fetched =>
          simp only [walkerStep, hg, hc, hf, Bool.false_eq_true, if_false,
            StepResult.inserted.injEq] at hstep
          have hsw : strStartsWith "github" "file://" = false := rfl
          refine ⟨name ++ "-" ++ info.commit, ?_, ?_⟩
          · rw [← hstep]
            simp [Package.get_key, Package.get_type, buildRepoPackage, hsw]
          · exact Option.not_isSome_iff_eq_none.1 (by simp [hc])
  | local_ name path =>
    cases hcanon : o.canonicalize path with
    | error e => simp [walkerStep, hcanon] at hstep
    | ok canonical =>
      cases hc : (map.lookup (name ++ "-" ++ canonical)).isSome with
      | true => simp [walkerStep, hcanon, hc] at hstep
      | false =>
        cases hr : o.readLocalConfig path with
        | error e => simp [walkerStep, hcanon, hc, hr] at hstep
        | ok found =>
          simp only [walkerStep, hcanon, hc, hr, Bool.false_eq_true, if_false,
            StepResult.inserted.injEq] at hstep
          refine ⟨name ++ "-" ++ canonical, ?_, ?_⟩
          · rw [← hstep]
            simp [Package.get_key, Package.get_type, buildLocalPackage,
              strStartsWith_append, stripStart_append]
          · exact Option.not_isSome_iff_eq_none.1 (by simp [hc])

/-- C3 witness: one registry iteration on the empty map builds `base@0.14.9`
whose `get_key` is the dedup key, absent from the map. -/
theorem claim_C3_witness :
    ∃ k, (buildMopsPackage "base" "0.14.9" wDetails).get_key = some k ∧
      List.lookup k ([] : List (String × Package)) = none :=
  claim_C3 wWalkerOracle [] (Mops.mops "base" "0.14.9")
    (buildMopsPackage "base" "0.14.9" wDetails)
    (by
      intro n v d h
      simp only [wWalkerOracle, Except.ok.injEq] at h
      rw [← h]
      exact ⟨rfl, by decide⟩)
    rfl

/-! ### Lemmas about the fetcher (claim C4) -/

theorem download_file_ok {o : StorageOracle} {base id : String} {ws : List WriteEvent}
    (h : download_file o base id = (ws, none)) :
    ∃ m blob, o.file_meta id = Except.ok m ∧ fullBlob o id m.chunk_count = Except.ok blob ∧
      ws = [WriteEvent.mk (base ++ "/" ++ m.path) blob] := by
  unfold download_file at h
  cases hm : o.file_meta id with
  | error e => simp [hm] at h
  | ok m =>
    simp only [hm] at h
    cases hb : fullBlob o id m.chunk_count with
    | error e => simp [hb] at h
    | ok blob =>
      simp only [hb] at h
      cases hw : o.writeOut (base ++ "/" ++ m.path) with
      | error e => simp [hw] at h
      | ok u =>
        simp only [hw, Prod.mk.injEq] at h
        exact ⟨m, blob, rfl, hb, h.1.symm⟩

theorem download_file_events {o : StorageOracle} {base id : String} {ws : List WriteEvent}
    {err : Option String} (h : download_file o base id = (ws, err)) :
    ∀ ev ∈ ws, ∃ m, o.file_meta id = Except.ok m ∧ ev.path = base ++ "/" ++ m.path := by
  intro ev hev
  unfold download_file at h
  cases hm : o.file_meta id with
  | error e =>
    simp only [hm, Prod.mk.injEq] at h
    rw [← h.1] at hev
    simp at hev
  | ok m =>
    simp only [hm] at h
    cases hb : fullBlob o id m.chunk_count with
    | error e =>
      simp only [hb, Prod.mk.injEq] at h
      rw [← h.1] at hev
      simp at hev
    | ok blob =>
      simp only [hb] at h
      cases hw : o.writeOut (base ++ "/" ++ m.path) with
      | error e =>
        simp only [hw, Prod.mk.injEq] at h
        rw [← h.1] at hev
        simp at hev
      | ok u =>
        simp only [hw, Prod.mk.injEq] at h
        rw [← h.1] at hev
        simp at hev
        exact ⟨m, rfl, by rw [hev]⟩

theorem download_files_events {o : StorageOracle} {base : String} :
    ∀ (ids : List String) (ws : List WriteEvent) (err : Option String),
      download_files o base ids = (ws, err) →
      ∀ ev ∈ ws, ∃ id m, o.file_meta id = Except.ok m ∧ ev.path = base ++ "/" ++ m.path := by
  intro ids
  induction ids with
  | nil =>
    intro ws err h ev hev
    simp only [download_files, Prod.mk.injEq] at h
    rw [← h.1] at hev
    simp at hev
  | cons id0 rest ih =>
    intro ws err h ev hev
    rcases hdf : download_file o base id0 with ⟨ws0, err0⟩
    cases err0 with
    | some e =>
      simp only [download_files, hdf, Prod.mk.injEq] at h
      rw [← h.1] at hev
      obtain ⟨m, hm, hp⟩ := download_file_events hdf ev hev
      exact ⟨id0, m, hm, hp⟩
    | none =>
      rcases hrest : download_files o base rest with ⟨ws1, r1⟩
      simp only [download_files, hdf, hrest, Prod.mk.injEq] at h
      rw [← h.1] at hev
      rcases List.mem_append.1 hev with hev0 | hev1
      · obtain ⟨m, hm, hp⟩ := download_file_events hdf ev hev0
        exact ⟨id0, m, hm, hp⟩
      · exact ih ws1 r1 hrest ev hev1

theorem download_files_ok_mem {o : StorageOracle} {base : String} :
    ∀ (ids : List String) (ws : List WriteEvent),
      download_files o base ids = (ws, none) →
      ∀ id ∈ ids, ∃ m blob, o.file_meta id = Except.ok m ∧
        fullBlob o id m.chunk_count = Except.ok blob ∧
        WriteEvent.mk (base ++ "/" ++ m.path) blob ∈ ws := by
  intro ids
  induction ids with
  | nil =>
    intro ws h id hid
    simp at hid
  | cons id0 rest ih =>
    intro ws h id hid
    rcases hdf : download_file o base id0 with ⟨ws0, err0⟩
    cases err0 with
    | some e => simp only [download_files, hdf, Prod.mk.injEq] at h; exact absurd h.2 (by simp)
    | none =>
      rcases hrest : download_files o base rest with ⟨ws1, r1⟩
      simp only [download_files, hdf, hrest, Prod.mk.injEq] at h
      rcases List.mem_cons.1 hid with hid0 | hid1
      · obtain ⟨m, blob, hm, hb, hws0⟩ := download_file_ok hdf
        refine ⟨m, blob, by rw [hid0]; exact hm, by rw [hid0]; exact hb, ?_⟩
        rw [← h.1, hws0]
        simp
      · have hr1 : r1 = none := h.2
        obtain ⟨m, blob, hm, hb, hmem⟩ := ih ws1 (by rw [hrest, hr1]) id hid1
        refine ⟨m, blob, hm, hb, ?_⟩
        rw [← h.1]
        exact List.mem_append_right _ hmem

theorem download_files_no_done {o : StorageOracle} {base : String}
    (hmeta : ∀ id m, o.file_meta id = Except.ok m → m.path ≠ "DONE")
    {ids : List String} {ws : List WriteEvent} {err : Option String}
    (h : download_files o base ids = (ws, err)) :
    WriteEvent.mk (base ++ "/" ++ "DONE") [] ∉ ws := by
  intro hmem
  obtain ⟨id, m, hm, hp⟩ := download_files_events ids ws err h _ hmem
  exact hmeta id m hm (strAppend_left_cancel hp).symm

/-- C4: for every registry-package fetch, the empty `DONE` sentinel is
written iff every file of the package has been fully downloaded (all chunks,
concatenated in order) and written; whenever any call or filesystem write
errors, the task returns that error and its write trace contains no
sentinel.  Hypothesis `hmeta`: the registry serves no package file literally
named `DONE` (such a file would occupy the sentinel path). -/
theorem claim_C4 (o : StorageOracle) (base : String)
    (hmeta : ∀ id m, o.file_meta id = Except.ok m → m.path ≠ "DONE") :
    ((download_mops_package o base).2 = none →
      WriteEvent.mk (base ++ "/" ++ "DONE") [] ∈ (download_mops_package o base).1 ∧
      ∃ ids, o.file_ids = Except.ok ids ∧
        ∀ id ∈ ids, ∃ m blob, o.file_meta id = Except.ok m ∧
          fullBlob o id m.chunk_count = Except.ok blob ∧
          WriteEvent.mk (base ++ "/" ++ m.path) blob ∈ (download_mops_package o base).1) ∧
    (∀ e, (download_mops_package o base).2 = some e →
      WriteEvent.mk (base ++ "/" ++ "DONE") [] ∉ (download_mops_package o base).1) := by
  cases hids : o.file_ids with
  | error e0 =>
    constructor
    · intro h
      simp [download_mops_package, hids] at h
    · intro e he hmem
      simp [download_mops_package, hids] at hmem
  | ok ids =>
    rcases hdl : download_files o base ids with ⟨ws, r⟩
    cases r with
    | some e0 =>
      constructor
      · intro h
        simp [download_mops_package, hids, hdl] at h
      · intro e he hmem
        simp only [download_mops_package, hids, hdl] at hmem
        exact download_files_no_done hmeta hdl hmem
    | none =>
      cases hw : o.writeOut (base ++ "/" ++ "DONE") with
      | error e0 =>
        constructor
        · intro h
          simp [download_mops_package, hids, hdl, hw] at h
        · intro e he hmem
          simp only [download_mops_package, hids, hdl, hw] at hmem
          exact download_files_no_done hmeta hdl hmem
      | ok u =>
        constructor
        · intro h
          simp only [download_mops_package, hids, hdl, hw]
          refine ⟨List.mem_append_right _ (by simp), ids, rfl, ?_⟩
          intro id hid
          obtain ⟨m, blob, hm, hb, hmem⟩ := download_files_ok_mem ids ws hdl id hid
          exact ⟨m, blob, hm, hb, List.mem_append_left _ hmem⟩
        · intro e he
          simp [download_mops_package, hids, hdl, hw] at he

/-- C4 witness: the one-file oracle downloads and writes `lib.mo`, then the
sentinel; the success conclusion instantiates. -/
theorem claim_C4_witness :
    WriteEvent.mk ("root/mops/base-1.0.0" ++ "/" ++ "DONE") []
      ∈ (download_mops_package wStorage "root/mops/base-1.0.0").1 :=
  (((claim_C4 wStorage "root/mops/base-1.0.0"
    (by
      intro id m h
      by_cases hid : id = "id1"
      · subst hid
        simp [wStorage] at h
        subst h
        decide
      · simp [wStorage, hid] at h)).1) rfl).1

/-- C9: for every locked package whose completion sentinel already exists
under its cache subpath, the fetcher dispatches no fetch task for it; hence
a run over a cache in which every sentinel is present dispatches no task at
all — and since every fetch-stage network read happens inside a dispatched
task, such a run performs zero network reads. -/
theorem claim_C9 (pText : String → Except String String) (fsE : String → Bool)
    (root : String) (pkgs : List Package)
    (hall : ∀ pkg ∈ pkgs, ∃ sub dfile, pkg.get_path = some sub ∧
      pkg.get_done_file = some dfile ∧ fsE (root ++ "/" ++ sub ++ "/" ++ dfile) = true) :
    dispatch_tasks pText fsE root pkgs = Except.ok ([], []) := by
  induction pkgs with
  | nil => rfl
  | cons pkg rest ih =>
    obtain ⟨sub, dfile, hp, hd, hf⟩ := hall pkg (List.mem_cons_self _ _)
    have hrest := ih (fun q hq => hall q (List.mem_cons_of_mem _ hq))
    simp [dispatch_tasks, hp, hd, hf, hrest]

/-- C9 witness: a lockfile with one registry package over a filesystem where
the sentinel exists dispatches nothing. -/
theorem claim_C9_witness :
    dispatch_tasks (fun s => Except.ok s) (fun _ => true) "root" [pReg] = Except.ok ([], []) :=
  claim_C9 (fun s => Except.ok s) (fun _ => true) "root" [pReg]
    (by
      intro pkg h
      rw [List.mem_singleton.1 h]
      exact ⟨"mops/base-1.0.0", "DONE", rfl, rfl, rfl⟩)

end MopsSpec
